import Mathlib

/-!
Verification of the polymarket-automation-script repository.

We shallowly embed the Python source into Lean:
* MongoDB documents become association lists from field names to string
  values (the concrete value type is irrelevant to the claims, which only
  concern field presence, natural keys and whole-field overwrites).
* `update_one({'k': v}, {'$set': rec}, upsert=True)` becomes
  `updateOneUpsert`, using MongoDB's `$set` semantics: each top-level field
  of `rec` is written into the matched document (whole-field replacement,
  no deep merge), and a missing document is inserted.
* The network loops (`fetch_events`, `fetch_markets`, the monitoring loop)
  become functions of the remote data, or folds over a finite script of
  iteration outcomes, recording the sleeps and fetch calls they perform.
-/

namespace Polymarket

/-- A MongoDB document: an association list from field names to values.
Python dicts have distinct keys; where that matters it is a hypothesis. -/
abbrev Doc := List (String × String)

/-- `doc.get(f)` / `f in doc`: the first binding of field `f`. -/
def getField (d : Doc) (f : String) : Option String :=
  match d with
  | [] => none
  | (g, v) :: rest => if g = f then some v else getField rest f

/-- Write field `f` to value `v` (replace the first binding, or append). -/
def setField (d : Doc) (f v : String) : Doc :=
  match d with
  | [] => [(f, v)]
  | (g, w) :: rest => if g = f then (g, v) :: rest else (g, w) :: setField rest f v

/-- MongoDB `$set` applied to a whole record: every top-level field of
`rec` is written into `old`; fields of `old` not named in `rec` remain. -/
def mongoSet (old rec : Doc) : Doc :=
  rec.foldl (fun d fv => setField d fv.1 fv.2) old

/-- A mirror-store collection: a list of documents. -/
abbrev Coll := List Doc

/-- `update_one({key: kval}, {'$set': rec}, upsert=True)`: apply `$set rec`
to the first document whose `key` field equals `kval`; if none matches,
insert a fresh document from `rec`. -/
def updateOneUpsert (coll : Coll) (key kval : String) (rec : Doc) : Coll :=
  match coll with
  | [] => [rec]
  | d :: rest =>
    if getField d key = some kval then mongoSet d rec :: rest
    else d :: updateOneUpsert rest key kval rec

/-- `MongoSchema.validate_event`: required fields id, slug, title. -/
def validate_event (event_data : Doc) : Bool :=
  ["id", "slug", "title"].all fun f => (getField event_data f).isSome

/-- `MongoSchema.validate_market`: required fields question, market_slug. -/
def validate_market (market_data : Doc) : Bool :=
  ["question", "market_slug"].all fun f => (getField market_data f).isSome

/-- One step of `save_events`' loop body: validate, then upsert keyed on
`id`; invalid records are skipped (logged in the source). Date-field
normalisation (`_process_dates`) only rewrites timestamp values in place
and is identity in this value model. -/
def saveOne (validate : Doc → Bool) (key : String) (coll : Coll) (rec : Doc) : Coll :=
  if validate rec then updateOneUpsert coll key ((getField rec key).getD "") rec
  else coll

/-- `MongoDBHandler.save_events`: upsert each valid event by `id`. -/
def save_events (coll : Coll) (events_data : List Doc) : Coll :=
  events_data.foldl (saveOne validate_event "id") coll

/-- `MongoDBHandler.save_markets`: upsert each valid market by `market_slug`. -/
def save_markets (coll : Coll) (markets_data : List Doc) : Coll :=
  markets_data.foldl (saveOne validate_market "market_slug") coll

/-- Number of stored documents whose `key` field equals `kval`
(`count_documents({key: kval})`). -/
def countByKey (coll : Coll) (key kval : String) : Nat :=
  (coll.filter fun d => getField d key = some kval).length

/-- `find_one({key: kval})`: the first stored document with that key. -/
def find_one (coll : Coll) (key kval : String) : Option Doc :=
  match coll with
  | [] => none
  | d :: rest => if getField d key = some kval then some d else find_one rest key kval

/-- `Config.BATCH_SIZE`. -/
def BATCH_SIZE : Nat := 500

/-! ## Remote fetch loops

`EventHandler.fetch_events` pages through the remote events collection,
advancing `offset` by `BATCH_SIZE` until the server returns an empty page;
the remote collection is modelled as the list `remote`, the page at
`offset` being `(remote.drop offset).take BATCH_SIZE`. The result pairs
the accumulated records with the number of HTTP requests issued. -/

def fetchEventsFrom (remote : List Doc) (offset : Nat) : List Doc × Nat :=
  if h : ((remote.drop offset).take BATCH_SIZE).isEmpty then ([], 1)
  else
    let rest := fetchEventsFrom remote (offset + BATCH_SIZE)
    ((remote.drop offset).take BATCH_SIZE ++ rest.1, rest.2 + 1)
termination_by remote.length - offset
decreasing_by
  simp only [BATCH_SIZE, List.isEmpty_eq_true, List.take_eq_nil_iff, List.drop_eq_nil_iff] at h ⊢
  omega

/-- `EventHandler.fetch_events` (the happy path, no exceptions): start at
offset 0. -/
def fetch_events (remote : List Doc) : List Doc × Nat :=
  fetchEventsFrom remote 0

/-- `MarketHandler.fetch_markets` follows the CLOB cursor chain: each
request returns one page plus the next cursor, the final page carrying the
sentinel cursor `"LTE="`. The chain is modelled as the list `pages`, page
`i` being last exactly when `i + 1 = pages.length`. -/
def fetchMarketsFrom (pages : List (List Doc)) (i : Nat) : List Doc × Nat :=
  if h : i < pages.length then
    let page := pages.get ⟨i, h⟩
    if i + 1 < pages.length then
      let rest := fetchMarketsFrom pages (i + 1)
      (page ++ rest.1, rest.2 + 1)
    else (page, 1)
  else ([], 0)
termination_by pages.length - i

/-- `MarketHandler.fetch_markets` (happy path): start at the first cursor. -/
def fetch_markets (pages : List (List Doc)) : List Doc × Nat :=
  fetchMarketsFrom pages 0

/-! ## Bootstrap (`initialize_if_needed`) -/

/-- Outcome of one collection's bootstrap check: the store afterwards and
how many remote fetch requests were issued. -/
structure BootstrapResult where
  store : Coll
  fetchCalls : Nat
  deriving Repr, DecidableEq

/-- Events half of `EventAndMarketMonitor.initialize_if_needed`: if
`count_documents({})` is zero, run `EventHandler.initialize` (fetch all
pages, save them); otherwise skip ("already contains ... events"). -/
def initialize_if_needed_events (store : Coll) (remote : List Doc) : BootstrapResult :=
  if store.length = 0 then
    let fetched := fetch_events remote
    { store := save_events store fetched.1, fetchCalls := fetched.2 }
  else { store := store, fetchCalls := 0 }

/-- Markets half of `initialize_if_needed` (same shape in `app.py` and
`monitor_markets.py`): fetch the cursor chain and save only when the
mirror count is zero. -/
def initialize_if_needed_markets (store : Coll) (pages : List (List Doc)) : BootstrapResult :=
  if store.length = 0 then
    let fetched := fetch_markets pages
    { store := save_markets store fetched.1, fetchCalls := fetched.2 }
  else { store := store, fetchCalls := 0 }

/-! ## Delta fetches -/

/-- A single `(offset, limit)` HTTP request as issued by
`get_latest_events`. -/
structure EventsDelta where
  requests : List (Nat × Nat)
  records : List Doc
  deriving Repr, DecidableEq

/-- `EventAndMarketMonitor.get_latest_events`: count the mirror, issue one
request at `offset = count, limit = BATCH_SIZE`, return its page. -/
def get_latest_events (store : Coll) (remote : List Doc) : EventsDelta :=
  let total_docs := store.length
  { requests := [(total_docs, BATCH_SIZE)],
    records := (remote.drop total_docs).take BATCH_SIZE }

/-- The set of locally known market slugs
(`set(doc['market_slug'] for doc in markets_collection.find(...))`);
stored markets always carry the field, having passed `validate_market`. -/
def existingMarketSlugs (store : Coll) : List String :=
  store.filterMap fun d => getField d "market_slug"

/-- `EventAndMarketMonitor.get_latest_markets` /
`MarketMonitor.get_latest_markets`: fetch the whole remote collection and
keep the markets whose slug is present, truthy (Python: the empty string
is falsy) and not among the locally known slugs. -/
def get_latest_markets (store : Coll) (pages : List (List Doc)) : List Doc :=
  let existing_market_slugs := existingMarketSlugs store
  let all_markets := (fetch_markets pages).1
  all_markets.filter fun market =>
    match getField market "market_slug" with
    | some s => s ≠ "" && ¬ existing_market_slugs.contains s
    | none => false

/-! ## Fetch loops under failure

To reason about the exception branches we re-run the two bootstrap fetch
loops against a finite *script* of per-iteration outcomes: each script
entry is what the remote call of that iteration does (return a page or
raise one of the classified exceptions). The loop result records the
accumulated documents and the sequence of `time.sleep` waits performed. -/

/-- One iteration outcome of `EventHandler.fetch_events`' request:
`requests.get` returns a page, or raises a classified exception. -/
inductive EvResp where
  | page (docs : List Doc)
  | connErr
  | timeoutErr
  | httpErr
  | unexpectedErr
  deriving Repr, DecidableEq

/-- One iteration outcome of `MarketHandler.fetch_markets`' request: a
page tagged with whether its `next_cursor` is the sentinel `"LTE="`, or a
raised exception (the markets loop classifies only the builtin
`ConnectionError`/`TimeoutError` pair specially). -/
inductive MkResp where
  | page (docs : List Doc) (last : Bool)
  | connErr
  | timeoutErr
  | unexpectedErr
  deriving Repr, DecidableEq

/-- Result of running a fetch loop against a script. -/
inductive FetchOutcome where
  /-- The loop terminated normally with these records, after these sleeps. -/
  | ok (docs : List Doc) (waits : List Nat)
  /-- An exception propagated out of the loop after these sleeps. -/
  | fatal (waits : List Nat)
  /-- The script ran out while the loop was still going. -/
  | outOfScript (docs : List Doc) (waits : List Nat)
  deriving Repr, DecidableEq

/-- Whether a fetch outcome is a propagated (fatal) exception. -/
def FetchOutcome.toFatal : FetchOutcome → Bool
  | .fatal _ => true
  | _ => false

/-- `EventHandler.fetch_events` run against a script. Connectivity waits
60, timeout waits 30, HTTP error waits 120 and the loop continues; any
other exception is re-raised (`raise`). An empty page breaks the loop. -/
def fetch_events_script : List EvResp → List Doc → List Nat → FetchOutcome
  | [], acc, ws => .outOfScript acc ws
  | .page ds :: rest, acc, ws =>
    if ds.isEmpty then .ok acc ws else fetch_events_script rest (acc ++ ds) ws
  | .connErr :: rest, acc, ws => fetch_events_script rest acc (ws ++ [60])
  | .timeoutErr :: rest, acc, ws => fetch_events_script rest acc (ws ++ [30])
  | .httpErr :: rest, acc, ws => fetch_events_script rest acc (ws ++ [120])
  | .unexpectedErr :: _, _, ws => .fatal ws

/-- `MarketHandler.fetch_markets` run against a script (identical in
`app.py` and `monitor_markets.py`). Connectivity/timeout wait 60 and
continue; *every other* exception waits 120 and continues — nothing is
re-raised. The sentinel cursor breaks the loop after extending. -/
def fetch_markets_script : List MkResp → List Doc → List Nat → FetchOutcome
  | [], acc, ws => .outOfScript acc ws
  | .page ds last :: rest, acc, ws =>
    if last then .ok (acc ++ ds) ws else fetch_markets_script rest (acc ++ ds) ws
  | .connErr :: rest, acc, ws => fetch_markets_script rest acc (ws ++ [60])
  | .timeoutErr :: rest, acc, ws => fetch_markets_script rest acc (ws ++ [60])
  | .unexpectedErr :: rest, acc, ws => fetch_markets_script rest acc (ws ++ [120])

/-! ## Monitoring loop (`start_monitoring`)

Constants from the source: `monitoring_interval = 60`,
`max_consecutive_failures = 5`, `base_retry_interval = 60`. Each loop
iteration either completes the body (success), raises
`requests.exceptions.ConnectionError` (caught by the first `except`
clause, which has no alert logic), or raises any other exception (caught
by the generic clause, which alerts and resets once the counter has
reached the maximum). -/

/-- Outcome of one iteration of the monitoring loop body. -/
inductive MonResp where
  | success
  | connErr
  | otherErr
  deriving Repr, DecidableEq

/-- Observable state of the monitoring loop: the consecutive-failure
counter, the backoff sleeps performed so far (retry waits only), how many
regular `monitoring_interval` sleeps followed successes, and how many
CRITICAL alerts were printed. -/
structure MonState where
  consecutive_failures : Nat
  retryWaits : List Nat
  intervalSleeps : Nat
  alerts : Nat
  deriving Repr, DecidableEq

def monInit : MonState :=
  { consecutive_failures := 0, retryWaits := [], intervalSleeps := 0, alerts := 0 }

/-- One iteration of `start_monitoring`'s `while True` body (identical in
`app.py` and `monitor_markets.py`). -/
def monStep (s : MonState) (r : MonResp) : MonState :=
  match r with
  | .success =>
    { s with consecutive_failures := 0, intervalSleeps := s.intervalSleeps + 1 }
  | .connErr =>
    let f := s.consecutive_failures + 1
    { s with consecutive_failures := f, retryWaits := s.retryWaits ++ [60 * 2 ^ f] }
  | .otherErr =>
    let f := s.consecutive_failures + 1
    let s1 := { s with consecutive_failures := f, retryWaits := s.retryWaits ++ [60 * 2 ^ f] }
    if 5 ≤ f then { s1 with alerts := s1.alerts + 1, consecutive_failures := 0 }
    else s1

/-- The monitoring loop over a finite script of iteration outcomes. -/
def monRun (s : MonState) (script : List MonResp) : MonState :=
  script.foldl monStep s

/-! ## Order flow (`telegram_bot.py`)

Numeric user input goes through Python's `float(...)`; we model its core
grammar — optional sign, then digits with an optional decimal point
(`"1"`, `"1."`, `".5"`, `"1.5"`) — over exact rationals. (Whitespace
trimming, underscores, exponents and `inf`/`nan` are not modelled; the
claims only depend on parse success/failure and on the sign of the
value.) -/

/-- Value of a digit string. -/
def digitsVal (cs : List Char) : Nat :=
  cs.foldl (fun n c => n * 10 + (c.toNat - 48)) 0

/-- Parse an unsigned decimal literal. -/
def parseUnsignedFloat? (cs : List Char) : Option ℚ :=
  let intPart := cs.takeWhile (·.isDigit)
  match cs.drop intPart.length with
  | [] => if intPart.isEmpty then none else some (digitsVal intPart)
  | '.' :: frac =>
    if frac.all (·.isDigit) && (!intPart.isEmpty || !frac.isEmpty) then
      some ((digitsVal intPart : ℚ) + (digitsVal frac : ℚ) / (10 : ℚ) ^ frac.length)
    else none
  | _ => none

/-- `float(text)`: returns the parsed value, or `none` where Python
raises `ValueError`. -/
def parseFloat? (s : String) : Option ℚ :=
  match s.data with
  | '-' :: rest => (parseUnsignedFloat? rest).map (fun q => -q)
  | '+' :: rest => parseUnsignedFloat? rest
  | cs => parseUnsignedFloat? cs

/-- Conversation states of the order flow (`range(4)` plus
`ConversationHandler.END` as the terminal state). -/
inductive ConvState where
  | selectingOutcome
  | selectingSide
  | enteringAmount
  | enteringPrice
  | terminal
  deriving Repr, DecidableEq

/-- `user_data['order_type']`: `'market'` or `'limit'`. -/
inductive OrderKind where
  | market
  | limit
  deriving Repr, DecidableEq

/-- `BUY` / `SELL`. -/
inductive TradeSide where
  | buy
  | sell
  deriving Repr, DecidableEq

/-- What a conversation-state handler did: the state it returned, whether
it re-prompted the user, and whether it invoked `place_order`. -/
structure HandlerResult where
  nextState : ConvState
  reprompted : Bool
  submitted : Bool
  deriving Repr, DecidableEq

/-- `handle_amount_entry`: `float(update.message.text)`; on `ValueError`
re-prompt and stay in `ENTERING_AMOUNT`; otherwise market orders submit
and end the conversation, limit orders move to `ENTERING_PRICE`. -/
def handle_amount_entry (order_type : OrderKind) (text : String) : HandlerResult :=
  match parseFloat? text with
  | some _ =>
    match order_type with
    | .market => { nextState := .terminal, reprompted := false, submitted := true }
    | .limit => { nextState := .enteringPrice, reprompted := false, submitted := false }
  | none => { nextState := .enteringAmount, reprompted := true, submitted := false }

/-- The acceptance predicate stated by the spec for the EnteringAmount
state — "input must parse as a positive number". This definition follows
the spec's words (not the source) and exists only to be compared with
`handle_amount_entry`, which never checks the sign. -/
def parsesAsPositiveNumber (s : String) : Bool :=
  match parseFloat? s with
  | some q => decide (0 < q)
  | none => false

/-- `handle_price_entry`: parse, check `0 <= price <= 1`, then submit and
end; otherwise re-prompt and stay in `ENTERING_PRICE`. -/
def handle_price_entry (text : String) : HandlerResult :=
  match parseFloat? text with
  | some price =>
    if 0 ≤ price ∧ price ≤ 1 then
      { nextState := .terminal, reprompted := false, submitted := true }
    else { nextState := .enteringPrice, reprompted := true, submitted := false }
  | none => { nextState := .enteringPrice, reprompted := true, submitted := false }

/-! ## Order submission and persistence (`place_order`, `models.py`) -/

/-- A document of the orders collection, with the fields `place_order`
assembles. The initial `order_data` dict lacks the `order_id`,
`transaction_hashes` and `error_message` keys; they are modelled by their
neutral defaults, which `order_data.update(...)` then overwrites. -/
structure OrderRec where
  user_id : Int
  market_id : String
  outcome : String
  token_id : String
  amount : ℚ
  side : TradeSide
  kind : OrderKind
  price : Option ℚ
  status : String
  order_id : Option String
  transaction_hashes : List String
  error_message : String
  deriving Repr, DecidableEq

/-- The synchronous response of `clob_client.post_order`: `resp.get(...)`
over the keys `place_order` reads. -/
structure ApiResp where
  success : Bool
  orderID : Option String
  transactionsHashes : List String
  errorMsg : Option String
  deriving Repr, DecidableEq

/-- The per-conversation `context.user_data` at the time `place_order`
runs. `price` is only populated for limit orders. -/
structure OrderUserData where
  user_id : Int
  market_id : String
  selected_outcome : String
  token_id : String
  amount : ℚ
  side : TradeSide
  order_type : OrderKind
  price : Option ℚ
  deriving Repr, DecidableEq

/-- The `order_data` dict as first assembled in `place_order`, before the
remote call: status `"pending"`, no remote identifier yet. -/
def initialOrder (ud : OrderUserData) : OrderRec :=
  { user_id := ud.user_id
    market_id := ud.market_id
    outcome := ud.selected_outcome
    token_id := ud.token_id
    amount := ud.amount
    side := ud.side
    kind := ud.order_type
    price := match ud.order_type with | .limit => ud.price | .market => none
    status := "pending"
    order_id := none
    transaction_hashes := []
    error_message := "" }

/-- `order_data.update({...})` after the remote call returns: status
becomes `"success"`/`"failed"`, remote order id, transaction hashes and
error text are filled in. -/
def finalizeOrder (order_data : OrderRec) (resp : ApiResp) : OrderRec :=
  { order_data with
    order_id := resp.orderID
    transaction_hashes := resp.transactionsHashes
    status := if resp.success then "success" else "failed"
    error_message := resp.errorMsg.getD "" }

/-- `OrderSchema.validate_order`, restricted to the checks that are not
guaranteed by this typed embedding: status is one of the four lifecycle
strings, and a limit order carries a price in `[0, 1]`. -/
def validate_order (r : OrderRec) : Bool :=
  (r.status = "pending" || r.status = "success" || r.status = "failed"
      || r.status = "matched")
    && match r.kind with
       | .limit => match r.price with
         | some p => decide (0 ≤ p ∧ p ≤ 1)
         | none => false
       | .market => true

/-- `MongoDBHandler.save_order` (`models.py`): validate, then
`insert_one`; returns the grown collection and the success flag. (The
`updated_at` timestamp it also sets is not modelled.) -/
def save_order (orders : List OrderRec) (order_data : OrderRec) : List OrderRec × Bool :=
  if validate_order order_data then (orders ++ [order_data], true) else (orders, false)

/-- `place_order`'s effect on the orders collection: assemble the pending
`order_data`, call the submission API (response `resp`), finalize the
in-memory dict from the response, then persist it with a single
`save_order` call. No other write to the orders collection occurs. -/
def place_order (orders : List OrderRec) (ud : OrderUserData) (resp : ApiResp) :
    List OrderRec :=
  (save_order orders (finalizeOrder (initialOrder ud) resp)).1

/-- A sample `user_data` for a market buy order, used as a concrete
input. -/
def udSample : OrderUserData :=
  { user_id := 7, market_id := "m1", selected_outcome := "Yes", token_id := "tok"
    amount := 10, side := .buy, order_type := .market, price := none }

/-- A sample successful submission-API response. -/
def respSample : ApiResp :=
  { success := true, orderID := some "oid", transactionsHashes := ["0xabc"]
    errorMsg := none }

/-! ## New-market alert poll (`check_new_markets`) -/

/-- A market as seen by the alert poll: its id and its `startDate`,
abstracted to seconds since the epoch (`fromisoformat` not modelled). -/
structure Mkt where
  id : String
  startDate : Int
  deriving Repr, DecidableEq

/-- `check_new_markets` as a pure function of the previous snapshot, the
freshly fetched page and the current time (seconds): returns the markets
alerted on and the next snapshot. The `{id: market}` snapshot dicts are
modelled as lists whose ids are distinct within one poll result, and the
iteration over the set of new ids as a filter of the current list. -/
def check_new_markets (previous_markets : Option (List Mkt)) (current_markets : List Mkt)
    (now : Int) : List Mkt × Option (List Mkt) :=
  if current_markets.isEmpty then ([], previous_markets)
  else
    match previous_markets with
    | none => ([], some current_markets)
    | some prev =>
      let new_markets := current_markets.filter fun m => prev.all fun p => p.id ≠ m.id
      let alerts := new_markets.filter fun m => now - m.startDate ≤ 120
      (alerts, some current_markets)

/-! # Helper lemmas -/

theorem getField_setField_self (d : Doc) (f v : String) :
    getField (setField d f v) f = some v := by
  induction d with
  | nil => simp [setField, getField]
  | cons p rest ih =>
    obtain ⟨g, w⟩ := p
    by_cases h : g = f
    · simp [setField, getField, h]
    · simp [setField, getField, h, ih]

theorem getField_setField_ne (d : Doc) (f g v : String) (hne : g ≠ f) :
    getField (setField d f v) g = getField d g := by
  induction d with
  | nil => simp [setField, getField, Ne.symm hne]
  | cons p rest ih =>
    obtain ⟨g', w⟩ := p
    by_cases h : g' = f
    · subst h
      simp [setField, getField, Ne.symm hne]
    · simp [setField, getField, h, ih]

theorem setField_eq_of_getField (d : Doc) (f v : String) (h : getField d f = some v) :
    setField d f v = d := by
  induction d with
  | nil => simp [getField] at h
  | cons p rest ih =>
    obtain ⟨g, w⟩ := p
    by_cases hg : g = f
    · subst hg
      simp [getField] at h
      simp [setField, h]
    · simp [getField, hg] at h
      simp [setField, hg, ih h]

theorem foldl_setField_eq (rec : Doc) (d : Doc)
    (h : ∀ fv ∈ rec, getField d fv.1 = some fv.2) :
    rec.foldl (fun e fv => setField e fv.1 fv.2) d = d := by
  induction rec generalizing d with
  | nil => rfl
  | cons fv rest ih =>
    have h1 : setField d fv.1 fv.2 = d :=
      setField_eq_of_getField _ _ _ (h fv (by simp))
    rw [List.foldl_cons, h1]
    exact ih d fun x hx => h x (by simp [hx])

theorem getField_eq_of_mem (d : Doc) (f v : String)
    (hnd : (d.map Prod.fst).Nodup) (hmem : (f, v) ∈ d) :
    getField d f = some v := by
  induction d with
  | nil => cases hmem
  | cons p rest ih =>
    obtain ⟨g, w⟩ := p
    rcases List.mem_cons.mp hmem with h | h
    · obtain ⟨rfl, rfl⟩ := Prod.mk.injEq .. ▸ h
      simp [getField]
    · have hgf : g ≠ f := by
        intro hgf
        subst hgf
        exact (List.nodup_cons.mp hnd).1 (List.mem_map.mpr ⟨(g, v), h, rfl⟩)
      simp only [getField, if_neg hgf]
      exact ih (List.nodup_cons.mp hnd).2 h

theorem mem_of_getField (d : Doc) (f v : String) (h : getField d f = some v) :
    (f, v) ∈ d := by
  induction d with
  | nil => simp [getField] at h
  | cons p rest ih =>
    obtain ⟨g, w⟩ := p
    by_cases hg : g = f
    · subst hg
      simp [getField] at h
      simp [h]
    · simp only [getField, if_neg hg] at h
      exact List.mem_cons_of_mem _ (ih h)

theorem getField_foldl_setField_of_not_mem (rec : Doc) (d : Doc) (f : String)
    (h : f ∉ rec.map Prod.fst) :
    getField (rec.foldl (fun e fv => setField e fv.1 fv.2) d) f = getField d f := by
  induction rec generalizing d with
  | nil => rfl
  | cons fv rest ih =>
    simp only [List.map_cons, List.mem_cons, not_or] at h
    rw [List.foldl_cons, ih _ h.2, getField_setField_ne _ _ _ _ h.1]

theorem getField_mongoSet_of_getField (d rec : Doc) (f v : String)
    (hnd : (rec.map Prod.fst).Nodup) (h : getField rec f = some v) :
    getField (mongoSet d rec) f = some v := by
  induction rec generalizing d with
  | nil => simp [getField] at h
  | cons fv rest ih =>
    obtain ⟨g, w⟩ := fv
    simp only [List.map_cons, List.nodup_cons] at hnd
    by_cases hg : g = f
    · subst hg
      simp only [getField, if_pos rfl] at h
      have hv : w = v := by injection h
      subst hv
      show getField (rest.foldl _ (setField d g w)) g = some w
      rw [getField_foldl_setField_of_not_mem _ _ _ hnd.1, getField_setField_self]
    · simp only [getField, if_neg hg] at h
      exact ih _ hnd.2 h

theorem isSome_getField_mongoSet (d rec : Doc) (f : String)
    (h : (getField d f).isSome) : (getField (mongoSet d rec) f).isSome := by
  induction rec generalizing d with
  | nil => exact h
  | cons fv rest ih =>
    apply ih
    by_cases hg : fv.1 = f
    · subst hg
      simp [getField_setField_self]
    · rwa [getField_setField_ne _ _ _ _ (Ne.symm hg)]

theorem mongoSet_self (rec : Doc) (hnd : (rec.map Prod.fst).Nodup) :
    mongoSet rec rec = rec :=
  foldl_setField_eq rec rec fun fv hv => getField_eq_of_mem rec fv.1 fv.2 hnd hv

theorem mongoSet_idem (d rec : Doc) (hnd : (rec.map Prod.fst).Nodup) :
    mongoSet (mongoSet d rec) rec = mongoSet d rec :=
  foldl_setField_eq rec (mongoSet d rec) fun fv hv =>
    getField_mongoSet_of_getField d rec fv.1 fv.2 hnd
      (getField_eq_of_mem rec fv.1 fv.2 hnd hv)

theorem countByKey_updateOneUpsert (coll : Coll) (key kval : String) (rec : Doc)
    (hnd : (rec.map Prod.fst).Nodup)
    (hrec : getField rec key = some kval)
    (hcount : countByKey coll key kval ≤ 1) :
    countByKey (updateOneUpsert coll key kval rec) key kval = 1 := by
  induction coll with
  | nil => simp [updateOneUpsert, countByKey, hrec]
  | cons d rest ih =>
    by_cases h : getField d key = some kval
    · have hm : getField (mongoSet d rec) key = some kval :=
        getField_mongoSet_of_getField d rec key kval hnd hrec
      have hrest : countByKey rest key kval = 0 := by
        simp only [countByKey, List.filter_cons, decide_eq_true_eq, if_pos h,
          List.length_cons] at hcount
        simp only [countByKey]
        omega
      simp only [updateOneUpsert, if_pos h, countByKey, List.filter_cons,
        decide_eq_true_eq, if_pos hm, List.length_cons]
      simp only [countByKey] at hrest
      omega
    · have hcount' : countByKey rest key kval ≤ 1 := by
        simpa [countByKey, List.filter_cons, h] using hcount
      simp [updateOneUpsert, countByKey, List.filter_cons, h] at *
      have := ih hcount'
      simpa [countByKey] using this

theorem updateOneUpsert_idem (coll : Coll) (key kval : String) (rec : Doc)
    (hnd : (rec.map Prod.fst).Nodup)
    (hrec : getField rec key = some kval) :
    updateOneUpsert (updateOneUpsert coll key kval rec) key kval rec
      = updateOneUpsert coll key kval rec := by
  induction coll with
  | nil => simp [updateOneUpsert, hrec, mongoSet_self rec hnd]
  | cons d rest ih =>
    by_cases h : getField d key = some kval
    · have hm : getField (mongoSet d rec) key = some kval :=
        getField_mongoSet_of_getField d rec key kval hnd hrec
      simp [updateOneUpsert, h, hm, mongoSet_idem d rec hnd]
    · simp [updateOneUpsert, h, ih]

theorem find_one_updateOneUpsert (coll : Coll) (key kval : String) (rec : Doc)
    (hnd : (rec.map Prod.fst).Nodup)
    (hrec : getField rec key = some kval)
    (f v : String) (hf : getField rec f = some v)
    (d : Doc) (hd : find_one (updateOneUpsert coll key kval rec) key kval = some d) :
    getField d f = some v := by
  induction coll with
  | nil =>
    simp [updateOneUpsert, find_one, hrec] at hd
    subst hd
    exact hf
  | cons e rest ih =>
    by_cases h : getField e key = some kval
    · have hm : getField (mongoSet e rec) key = some kval :=
        getField_mongoSet_of_getField e rec key kval hnd hrec
      simp [updateOneUpsert, find_one, h, hm] at hd
      subst hd
      exact getField_mongoSet_of_getField e rec f v hnd hf
    · simp only [updateOneUpsert, if_neg h, find_one] at hd
      exact ih hd

theorem fetchEventsFrom_fst (remote : List Doc) (offset : Nat) :
    (fetchEventsFrom remote offset).1 = remote.drop offset := by
  rw [fetchEventsFrom]
  by_cases h : ((remote.drop offset).take BATCH_SIZE).isEmpty
  · simp only [dif_pos h]
    simp only [List.isEmpty_eq_true, List.take_eq_nil_iff, List.drop_eq_nil_iff,
      BATCH_SIZE] at h
    rcases h with h | h
    · omega
    · exact (List.drop_eq_nil_iff.mpr h).symm
  · simp only [dif_neg h]
    have ih := fetchEventsFrom_fst remote (offset + BATCH_SIZE)
    simp only [ih]
    rw [← List.drop_drop, List.take_append_drop]
termination_by remote.length - offset
decreasing_by
  simp only [BATCH_SIZE, List.isEmpty_eq_true, List.take_eq_nil_iff,
    List.drop_eq_nil_iff] at h ⊢
  omega

theorem fetchMarketsFrom_fst (pages : List (List Doc)) (i : Nat) :
    (fetchMarketsFrom pages i).1 = (pages.drop i).flatten := by
  rw [fetchMarketsFrom]
  by_cases h : i < pages.length
  · simp only [dif_pos h]
    rw [List.drop_eq_getElem_cons h, List.flatten_cons]
    by_cases h2 : i + 1 < pages.length
    · have ih := fetchMarketsFrom_fst pages (i + 1)
      simp only [if_pos h2, ih]
      rfl
    · have : pages.drop (i + 1) = [] := List.drop_eq_nil_iff.mpr (by omega)
      simp [if_neg h2, this, List.get_eq_getElem]
  · have : pages.drop i = [] := List.drop_eq_nil_iff.mpr (by omega)
    simp [dif_neg h, this]
termination_by pages.length - i

theorem foldl_saveOne_filter (validate : Doc → Bool) (key : String)
    (coll : Coll) (records : List Doc) :
    records.foldl (saveOne validate key) coll
      = (records.filter validate).foldl (saveOne validate key) coll := by
  induction records generalizing coll with
  | nil => rfl
  | cons r rest ih =>
    by_cases h : validate r
    · simp only [List.filter_cons, if_pos h, List.foldl_cons, ih]
    · simp only [List.filter_cons, if_neg h, List.foldl_cons, saveOne, if_neg h, ih]

theorem mem_updateOneUpsert (coll : Coll) (key kval : String) (rec : Doc)
    (P : Doc → Prop)
    (hcoll : ∀ d ∈ coll, P d) (hrec : P rec)
    (hmerge : ∀ d, P d → P (mongoSet d rec)) :
    ∀ d ∈ updateOneUpsert coll key kval rec, P d := by
  induction coll with
  | nil =>
    intro d hd
    simp only [updateOneUpsert, List.mem_singleton] at hd
    exact hd ▸ hrec
  | cons e rest ih =>
    intro d hd
    by_cases h : getField e key = some kval
    · simp only [updateOneUpsert, if_pos h, List.mem_cons] at hd
      rcases hd with rfl | hd
      · exact hmerge e (hcoll e (by simp))
      · exact hcoll d (by simp [hd])
    · simp only [updateOneUpsert, if_neg h, List.mem_cons] at hd
      rcases hd with rfl | hd
      · exact hcoll d (by simp)
      · exact ih (fun x hx => hcoll x (by simp [hx])) d hd

theorem valid_foldl_saveOne (validate : Doc → Bool) (key : String)
    (hmerge : ∀ d r, validate d = true → validate r = true →
      validate (mongoSet d r) = true)
    (coll : Coll) (records : List Doc)
    (hcoll : ∀ d ∈ coll, validate d = true) :
    ∀ d ∈ records.foldl (saveOne validate key) coll, validate d = true := by
  induction records generalizing coll with
  | nil => exact hcoll
  | cons r rest ih =>
    rw [List.foldl_cons]
    by_cases h : validate r
    · apply ih
      intro d hd
      refine mem_updateOneUpsert coll key ((getField r key).getD "") r
        (fun d => validate d = true) hcoll h (fun e he => hmerge e r he h) d ?_
      simpa [saveOne, h] using hd
    · have : saveOne validate key coll r = coll := by simp [saveOne, h]
      rw [this]
      exact ih coll hcoll

theorem validate_event_mongoSet (d r : Doc) (hd : validate_event d = true) :
    validate_event (mongoSet d r) = true := by
  simp only [validate_event, List.all_eq_true] at hd ⊢
  intro f hf
  exact isSome_getField_mongoSet d r f (hd f hf)

theorem validate_market_mongoSet (d r : Doc) (hd : validate_market d = true) :
    validate_market (mongoSet d r) = true := by
  simp only [validate_market, List.all_eq_true] at hd ⊢
  intro f hf
  exact isSome_getField_mongoSet d r f (hd f hf)

/-! # Claim theorems -/

/-- Claim C1, as stated, is false: `save_events` upserts with MongoDB
`$set`, which merges at the document root. After storing an event for key
`"k"` that carries an `"extra"` field and then re-upserting a record for
the same key *without* that field, the stored document still carries
`"extra" ↦ "x"`, so its field values are not entirely those of the second
written record. -/
theorem upsert_counterexample :
    save_events []
        [[("id", "k"), ("slug", "s"), ("title", "t"), ("extra", "x")],
         [("id", "k"), ("slug", "s"), ("title", "t2")]]
      = [[("id", "k"), ("slug", "s"), ("title", "t2"), ("extra", "x")]]
  ∧ getField [("id", "k"), ("slug", "s"), ("title", "t2")] "extra" = none
  ∧ getField [("id", "k"), ("slug", "s"), ("title", "t2"), ("extra", "x")] "extra"
      = some "x" := ⟨rfl, rfl, rfl⟩

/-- Claim C1 (amended): upserting a record by its natural key into a
collection with at most one document for that key leaves exactly one
document for the key; the same upsert applied twice equals it applied
once; and the stored document under the key agrees with the written
record on every field the record carries (each such field is overwritten
whole — no deep merge). Fields present only in the earlier document
survive, since `$set` merges at the document root. -/
theorem upsert_idempotent_root_overwrite (coll : Coll) (key kval : String) (rec : Doc)
    (hnd : (rec.map Prod.fst).Nodup)
    (hrec : getField rec key = some kval)
    (hcount : countByKey coll key kval ≤ 1) :
    countByKey (updateOneUpsert coll key kval rec) key kval = 1
  ∧ updateOneUpsert (updateOneUpsert coll key kval rec) key kval rec
      = updateOneUpsert coll key kval rec
  ∧ ∀ f v, getField rec f = some v →
      ∀ d, find_one (updateOneUpsert coll key kval rec) key kval = some d →
        getField d f = some v :=
  ⟨countByKey_updateOneUpsert coll key kval rec hnd hrec hcount,
   updateOneUpsert_idem coll key kval rec hnd hrec,
   fun f v hf d hd => find_one_updateOneUpsert coll key kval rec hnd hrec f v hf d hd⟩

/-- Claim C1 witness: the amended theorem applied at a concrete record. -/
theorem upsert_idempotent_root_overwrite_witness :
    countByKey (updateOneUpsert [] "id" "k" [("id", "k"), ("title", "t")]) "id" "k" = 1 :=
  (upsert_idempotent_root_overwrite [] "id" "k" [("id", "k"), ("title", "t")]
    (by decide) (by decide) (by decide)).1

/-- Claim C3: for each collection, if the mirror count is non-zero the
bootstrap issues zero remote fetch calls and leaves the store untouched;
if it is zero, the pagination (offset pages for events, the cursor chain
for markets) fetches exactly the entire remote collection, and every
fetched record is handed to the upsert routine. -/
theorem bootstrap_noop_or_full_sync (estore mstore : Coll) (remote : List Doc)
    (pages : List (List Doc)) :
    (estore ≠ [] → initialize_if_needed_events estore remote
        = { store := estore, fetchCalls := 0 })
  ∧ (initialize_if_needed_events [] remote).store = save_events [] remote
  ∧ (fetch_events remote).1 = remote
  ∧ (mstore ≠ [] → initialize_if_needed_markets mstore pages
        = { store := mstore, fetchCalls := 0 })
  ∧ (initialize_if_needed_markets [] pages).store = save_markets [] pages.flatten
  ∧ (fetch_markets pages).1 = pages.flatten := by
  have hev : (fetch_events remote).1 = remote := by
    simpa using fetchEventsFrom_fst remote 0
  have hmk : (fetch_markets pages).1 = pages.flatten := by
    simpa using fetchMarketsFrom_fst pages 0
  refine ⟨?_, ?_, hev, ?_, ?_, hmk⟩
  · intro h
    simp [initialize_if_needed_events, List.length_eq_zero, h]
  · simp [initialize_if_needed_events, hev]
  · intro h
    simp [initialize_if_needed_markets, List.length_eq_zero, h]
  · simp [initialize_if_needed_markets, hmk]

/-- Claim C3 witness: with one stored event, bootstrap is a no-op with
zero fetch calls. -/
theorem bootstrap_noop_or_full_sync_witness :
    initialize_if_needed_events [[("id", "a")]] [[("id", "b")]]
      = { store := [[("id", "a")]], fetchCalls := 0 } :=
  (bootstrap_noop_or_full_sync [[("id", "a")]] [] [[("id", "b")]] []).1 (by decide)

/-- Claim C4, as stated, is false: a remote market whose `market_slug`
field holds the empty string has a key (`""`) that is not among the local
keys, yet `get_latest_markets` drops it, because Python's truthiness test
`market.get('market_slug')` rejects the empty string. -/
theorem delta_fetch_counterexample :
    get_latest_markets [] [[[("question", "q"), ("market_slug", "")]]] = []
  ∧ getField [("question", "q"), ("market_slug", "")] "market_slug" = some ""
  ∧ existingMarketSlugs [] = [] := by
  have hall : (fetch_markets [[[("question", "q"), ("market_slug", "")]]]).1
      = [[("question", "q"), ("market_slug", "")]] := by
    simpa using fetchMarketsFrom_fst [[[("question", "q"), ("market_slug", "")]]] 0
  refine ⟨?_, rfl, rfl⟩
  simp only [get_latest_markets, hall]
  decide

/-- Claim C4 (amended): the key-set-difference delta fetch returns
exactly the remote markets that carry a *non-empty* slug not equal to the
slug of any locally stored market; markets with a missing or empty slug
are excluded even though their key is not locally known. -/
theorem delta_fetch_key_set_difference (store : Coll) (pages : List (List Doc)) (m : Doc) :
    m ∈ get_latest_markets store pages ↔
      m ∈ pages.flatten
      ∧ ∃ s, getField m "market_slug" = some s ∧ s ≠ ""
          ∧ ∀ d ∈ store, getField d "market_slug" ≠ some s := by
  have hall : (fetch_markets pages).1 = pages.flatten := by
    simpa using fetchMarketsFrom_fst pages 0
  simp only [get_latest_markets, hall, List.mem_filter]
  constructor
  · rintro ⟨hm, hp⟩
    refine ⟨hm, ?_⟩
    rcases hs : getField m "market_slug" with _ | s
    · rw [hs] at hp
      cases hp
    · rw [hs] at hp
      simp only [Bool.and_eq_true, decide_eq_true_eq] at hp
      refine ⟨s, rfl, hp.1, ?_⟩
      intro d hd heq
      exact hp.2 (List.elem_eq_true_of_mem (List.mem_filterMap.mpr ⟨d, hd, heq⟩))
  · rintro ⟨hm, s, hs, hne, hloc⟩
    refine ⟨hm, ?_⟩
    rw [hs]
    simp only [Bool.and_eq_true, decide_eq_true_eq]
    refine ⟨hne, ?_⟩
    intro hcon
    have := List.mem_of_elem_eq_true hcon
    rcases List.mem_filterMap.mp this with ⟨d, hd, hget⟩
    exact hloc d hd hget

/-- Claim C5, as stated, is false for the markets bootstrap fetch: an
unclassified failure is caught by the catch-all branch, which sleeps 120
and retries; here the loop then completes normally, so nothing propagates
to the caller. -/
theorem bootstrap_fetch_counterexample :
    fetch_markets_script [.unexpectedErr, .page [[("question", "q")]] true] [] []
      = .ok [[("question", "q")]] [120]
  ∧ (fetch_markets_script [.unexpectedErr, .page [[("question", "q")]] true] [] []).toFatal
      = false := ⟨rfl, rfl⟩

/-- Claim C5 (amended): an unclassified failure during the one-shot
events bootstrap fetch propagates immediately as fatal (no retry), but
the markets bootstrap fetch retries it after a 120-unit wait and never
propagates it. -/
theorem bootstrap_fetch_unexpected_failure (rest : List EvResp) (mrest : List MkResp)
    (acc : List Doc) (ws : List Nat) :
    fetch_events_script (.unexpectedErr :: rest) acc ws = .fatal ws
  ∧ fetch_markets_script (.unexpectedErr :: mrest) acc ws
      = fetch_markets_script mrest acc (ws ++ [120]) := ⟨rfl, rfl⟩

/-- Claim C6, as stated, is false: five consecutive connectivity failures
drive the counter to the configured maximum of 5, yet no critical alert
is emitted and the counter is not reset, because the
`ConnectionError` handler has no alert logic. -/
theorem monitoring_alert_counterexample :
    monRun monInit [.connErr, .connErr, .connErr, .connErr, .connErr]
      = { consecutive_failures := 5, retryWaits := [120, 240, 480, 960, 1920],
          intervalSleeps := 0, alerts := 0 } := rfl

/-- Claim C6 (amended): every failed iteration (of either kind) appends a
backoff wait of `60 * 2 ^ failures` with the incremented counter, every
success resets the counter (so 3 connectivity failures then a success
wait `60*2^1 + 60*2^2 + 60*2^3` in total and end with counter 0); the
critical alert and counter reset fire only in the generic exception
branch once the incremented counter reaches 5 — connectivity failures
never alert and let the counter grow past the maximum. -/
theorem monitoring_backoff_reset_alert (s : MonState) :
    (monRun monInit [.connErr, .connErr, .connErr, .success]).retryWaits
        = [60 * 2 ^ 1, 60 * 2 ^ 2, 60 * 2 ^ 3]
  ∧ (monRun monInit [.connErr, .connErr, .connErr, .success]).consecutive_failures = 0
  ∧ (monRun monInit [.connErr, .connErr, .connErr, .success]).alerts = 0
  ∧ (monStep s .success).consecutive_failures = 0
  ∧ (monStep s .connErr).retryWaits
      = s.retryWaits ++ [60 * 2 ^ (s.consecutive_failures + 1)]
  ∧ (monStep s .otherErr).retryWaits
      = s.retryWaits ++ [60 * 2 ^ (s.consecutive_failures + 1)]
  ∧ (monStep s .connErr).alerts = s.alerts
  ∧ (monStep s .connErr).consecutive_failures = s.consecutive_failures + 1
  ∧ (monStep s .otherErr).alerts
      = (if 5 ≤ s.consecutive_failures + 1 then s.alerts + 1 else s.alerts)
  ∧ (monStep s .otherErr).consecutive_failures
      = (if 5 ≤ s.consecutive_failures + 1 then 0 else s.consecutive_failures + 1) := by
  refine ⟨rfl, rfl, rfl, rfl, rfl, ?_, rfl, rfl, ?_, ?_⟩ <;>
    · simp only [monStep]
      split <;> rfl

/-- Claim C7: upserting a batch leaves invalid records (missing `id`,
`slug` or `title` for events; missing `question` or `market_slug` for
markets) without effect — the batch result equals the result on just the
valid records, so an invalid record neither aborts the batch nor blocks
the valid ones — and, starting from a store of validated documents, no
document lacking a required field is ever stored. -/
theorem batch_validation_skips_invalid (ecoll mcoll : Coll) (events markets : List Doc)
    (he : ∀ d ∈ ecoll, validate_event d = true)
    (hm : ∀ d ∈ mcoll, validate_market d = true) :
    save_events ecoll events = save_events ecoll (events.filter validate_event)
  ∧ (∀ d ∈ save_events ecoll events, validate_event d = true)
  ∧ save_markets mcoll markets = save_markets mcoll (markets.filter validate_market)
  ∧ (∀ d ∈ save_markets mcoll markets, validate_market d = true) :=
  ⟨foldl_saveOne_filter validate_event "id" ecoll events,
   valid_foldl_saveOne validate_event "id"
     (fun d r hd _ => validate_event_mongoSet d r hd) ecoll events he,
   foldl_saveOne_filter validate_market "market_slug" mcoll markets,
   valid_foldl_saveOne validate_market "market_slug"
     (fun d r hd _ => validate_market_mongoSet d r hd) mcoll markets hm⟩

/-- Claim C7 witness: a batch with one valid and one invalid event equals
the batch restricted to the valid event. -/
theorem batch_validation_skips_invalid_witness :
    save_events [] [[("id", "a"), ("slug", "s"), ("title", "t")], [("slug", "only")]]
      = save_events []
          ([[("id", "a"), ("slug", "s"), ("title", "t")], [("slug", "only")]].filter
            validate_event) :=
  (batch_validation_skips_invalid [] []
    [[("id", "a"), ("slug", "s"), ("title", "t")], [("slug", "only")]] []
    (by simp) (by simp)).1

/-- Claim C8: `get_latest_events` issues exactly one remote request, with
`offset` equal to the mirror's document count and the fixed page size as
`limit`, and returns the remote page starting there; under the
count-offset policy's assumptions (remote ids pairwise distinct and the
mirror holding exactly the ids of the remote prefix of its length), every
returned record's id differs from every stored record's id — only
strictly new records are appended. -/
theorem count_offset_delta_fetch (store : Coll) (remote : List Doc)
    (hnd : (remote.map fun d => getField d "id").Nodup)
    (hmirror : store.map (fun d => getField d "id")
        = (remote.take store.length).map fun d => getField d "id") :
    (get_latest_events store remote).requests = [(store.length, BATCH_SIZE)]
  ∧ (get_latest_events store remote).records
      = (remote.drop store.length).take BATCH_SIZE
  ∧ ∀ d ∈ (get_latest_events store remote).records, ∀ e ∈ store,
      getField d "id" ≠ getField e "id" := by
  refine ⟨rfl, rfl, ?_⟩
  intro d hd e he
  have hd2 : d ∈ remote.drop store.length := List.mem_of_mem_take hd
  have h1 : getField d "id" ∈ (remote.drop store.length).map fun x => getField x "id" :=
    List.mem_map_of_mem _ hd2
  have h2 : getField e "id" ∈ (remote.take store.length).map fun x => getField x "id" := by
    rw [← hmirror]
    exact List.mem_map_of_mem _ he
  have hsplit : remote.map (fun x => getField x "id")
      = ((remote.take store.length).map fun x => getField x "id")
        ++ (remote.drop store.length).map fun x => getField x "id" := by
    rw [← List.map_append, List.take_append_drop]
  rw [hsplit] at hnd
  intro heq
  exact List.disjoint_of_nodup_append hnd h2 (heq ▸ h1)

/-- Claim C8 witness: with one mirrored event out of two remote events,
the single request is issued at offset 1. -/
theorem count_offset_delta_fetch_witness :
    (get_latest_events [[("id", "a")]] [[("id", "a")], [("id", "b")]]).requests
      = [(1, BATCH_SIZE)] :=
  (count_offset_delta_fetch [[("id", "a")]] [[("id", "a")], [("id", "b")]]
    (by decide) (by decide)).1

/-- Claim C9, as stated, is false: `handle_amount_entry` only requires
`float(text)` to succeed and never checks the sign, so the input `"-1"`,
which does not parse as a *positive* number, still advances the
conversation (to EnteringPrice for a limit order, to Terminal with a
submission for a market order) instead of re-prompting. -/
theorem amount_entry_counterexample :
    parsesAsPositiveNumber "-1" = false
  ∧ handle_amount_entry .limit "-1"
      = { nextState := .enteringPrice, reprompted := false, submitted := false }
  ∧ handle_amount_entry .market "-1"
      = { nextState := .terminal, reprompted := false, submitted := true } := by
  refine ⟨?_, rfl, rfl⟩
  decide

/-- Claim C9 (amended): in EnteringAmount the input must merely parse as
a number (`float`); on parse failure the user is re-prompted and the
state stays EnteringAmount; on parse success — for any numeric value,
positive or not — a market order submits immediately and reaches
Terminal, while a limit order advances to EnteringPrice. -/
theorem amount_entry_transitions (text : String) :
    (parseFloat? text = none →
        handle_amount_entry .market text
            = { nextState := .enteringAmount, reprompted := true, submitted := false }
        ∧ handle_amount_entry .limit text
            = { nextState := .enteringAmount, reprompted := true, submitted := false })
  ∧ ∀ q, parseFloat? text = some q →
      handle_amount_entry .market text
          = { nextState := .terminal, reprompted := false, submitted := true }
      ∧ handle_amount_entry .limit text
          = { nextState := .enteringPrice, reprompted := false, submitted := false } := by
  constructor
  · intro h
    constructor <;> simp [handle_amount_entry, h]
  · intro q h
    constructor <;> simp [handle_amount_entry, h]

/-- Claim C9 witness: the amended theorem at the non-numeric input
`"abc"` and the numeric input `"2"`. -/
theorem amount_entry_transitions_witness :
    (handle_amount_entry .market "abc"
        = { nextState := .enteringAmount, reprompted := true, submitted := false })
  ∧ handle_amount_entry .limit "2"
      = { nextState := .enteringPrice, reprompted := false, submitted := false } :=
  ⟨((amount_entry_transitions "abc").1 (by decide)).1,
   ((amount_entry_transitions "2").2 2 (by decide)).2⟩

/-- Claim C2, as stated, is false: `place_order` never persists a PENDING
order and never mutates a stored record. At a concrete successful market
order the whole database trace is a single `insert_one` of a record whose
status is already `"success"`; no persisted record ever has status
`"pending"`. -/
theorem order_persistence_counterexample :
    place_order [] udSample respSample
      = [{ user_id := 7, market_id := "m1", outcome := "Yes", token_id := "tok",
           amount := 10, side := .buy, kind := .market, price := none,
           status := "success", order_id := some "oid",
           transaction_hashes := ["0xabc"], error_message := "" }]
  ∧ (place_order [] udSample respSample).countP (fun r => r.status == "pending") = 0
  ∧ (place_order [] udSample respSample).length = 1 := by
  refine ⟨?_, ?_, ?_⟩ <;> decide

/-- Claim C2 (amended): at submission time an Order dict with status
PENDING is assembled *in memory*; after the submission API's synchronous
response it is finalized — status SUCCESS/FAILED from the success flag,
remote order id, transaction hashes and error text copied in — and then
persisted by a single insert (at most one new record, never one with
status PENDING); previously stored records are never mutated. -/
theorem order_persistence_single_insert (orders : List OrderRec) (ud : OrderUserData)
    (resp : ApiResp) :
    (initialOrder ud).status = "pending"
  ∧ (∀ r ∈ place_order orders ud resp,
      r ∈ orders ∨ r = finalizeOrder (initialOrder ud) resp)
  ∧ (finalizeOrder (initialOrder ud) resp).status
      = (if resp.success then "success" else "failed")
  ∧ (finalizeOrder (initialOrder ud) resp).status ≠ "pending"
  ∧ (finalizeOrder (initialOrder ud) resp).order_id = resp.orderID
  ∧ (finalizeOrder (initialOrder ud) resp).transaction_hashes = resp.transactionsHashes
  ∧ (finalizeOrder (initialOrder ud) resp).error_message = resp.errorMsg.getD ""
  ∧ (place_order orders ud resp).length ≤ orders.length + 1 := by
  refine ⟨rfl, ?_, rfl, ?_, rfl, rfl, rfl, ?_⟩
  · intro r hr
    simp only [place_order, save_order] at hr
    split at hr
    · rcases List.mem_append.mp hr with h | h
      · exact Or.inl h
      · exact Or.inr (List.mem_singleton.mp h)
    · exact Or.inl hr
  · simp only [finalizeOrder]
    split <;> decide
  · simp only [place_order, save_order]
    split
    · simp
    · simp

/-- Claim C2 witness: the amended theorem's single-insert bound at the
sample order. -/
theorem order_persistence_single_insert_witness :
    (place_order [] udSample respSample).length ≤ ([] : List OrderRec).length + 1 :=
  (order_persistence_single_insert [] udSample respSample).2.2.2.2.2.2.2

/-- Claim C10: the alert poll alerts on a market only if it appears in
the current result, its id was absent from the previous snapshot, and its
start timestamp is at most 120 seconds before the current time; the first
poll never alerts and (for a non-empty result) only records the
snapshot; a newly appearing market older than 120 seconds is skipped yet
the whole current result — that market included — becomes the next
snapshot. -/
theorem new_market_alert_poll (prev current : List Mkt) (now : Int) (m : Mkt) :
    (m ∈ (check_new_markets (some prev) current now).1 →
        m ∈ current ∧ (∀ p ∈ prev, p.id ≠ m.id) ∧ now - m.startDate ≤ 120)
  ∧ (check_new_markets none current now).1 = []
  ∧ (current ≠ [] → (check_new_markets none current now).2 = some current)
  ∧ (current ≠ [] → (check_new_markets (some prev) current now).2 = some current)
  ∧ (120 < now - m.startDate → m ∉ (check_new_markets (some prev) current now).1) := by
  by_cases hc : current.isEmpty
  · have hnil : current = [] := List.isEmpty_iff.mp hc
    subst hnil
    refine ⟨?_, rfl, ?_, ?_, ?_⟩
    · intro h
      simp [check_new_markets] at h
    · intro h
      exact absurd rfl h
    · intro h
      exact absurd rfl h
    · intro _ h
      simp [check_new_markets] at h
  · refine ⟨?_, ?_, ?_, ?_, ?_⟩
    · intro hmem
      simp only [check_new_markets, if_neg hc, List.mem_filter, List.all_eq_true,
        decide_eq_true_eq] at hmem
      exact ⟨hmem.1.1, hmem.1.2, hmem.2⟩
    · simp only [check_new_markets, if_neg hc]
    · intro _
      simp only [check_new_markets, if_neg hc]
    · intro _
      simp only [check_new_markets, if_neg hc]
    · intro hold hmem
      simp only [check_new_markets, if_neg hc, List.mem_filter,
        decide_eq_true_eq] at hmem
      omega

/-- Claim C10 witness: the first poll with a non-empty result records it
as the snapshot. -/
theorem new_market_alert_poll_witness :
    (check_new_markets none [{ id := "a", startDate := 0 }] 100).2
      = some [{ id := "a", startDate := 0 }] :=
  (new_market_alert_poll [] [{ id := "a", startDate := 0 }] 100
    { id := "a", startDate := 0 }).2.2.1 (by decide)

end Polymarket
